import Mathlib

/-!
Verification of the search-and-export core of `video_retrieval_ui_v2.py`
(USLibAI video-retrieval UI).

The file shallowly embeds the data model and the pure content of the
operations the specification talks about:

* the query normalizer `remove_punctuations` (source lines 603-620),
* the linear metadata search `search_database_text` (source lines 760-814),
* the mock result generator inside `call_backend_text` (source lines 688-709),
* the Result Set operations `_update_results`, `toggle_selection`,
  `select_all`, `clear_selection` (source lines 828-957),
* the CSV export `generate_csv` / `create_csv_file` (source lines 960-1037).

Modelling conventions:

* A parsed JSON document is the inductive `Json`; numbers are modelled as
  integers (no claim depends on floats).  Python's `str()` of a parsed
  document is `pyStr` / `pyRepr` (single quotes around strings, `True` /
  `False` / `None`, insertion-ordered dicts).  Escaping of quotes inside
  string values is not modelled; no claim depends on it.
* `str.lower()` is modelled on ASCII letters (`pyLowerChar`), Python's
  substring test `a in b` is `containsSub`, `str.endswith` is
  `strEndsWith`, `os.path.splitext(...)[0]` for a plain file name is
  `pySplitextRoot` (including the leading-dot rule: a name whose only
  dots lead the last component is returned whole), `str.strip()` is
  `pyStrip`, and `str.split()` with no argument is `splitWS` (ASCII
  whitespace; the rarely relevant further Unicode whitespace is not
  modelled).
* The on-disk dataset is `DatasetStore`: the `media-info` listing is
  `none` when the directory is absent (`os.path.exists` false), otherwise
  the file names in listing order, each paired with its parse result
  (`none` models a `json.load` failure, which the source logs and skips).
  `keyframes` maps a video id to the listing of `keyframes/<video_id>`
  when that directory exists.
* File-system effects of the exporter (directory creation, file writing)
  are represented by the `CsvOutput` value returned on the success path;
  the validation failures of `generate_csv` return `Except.error` before
  any `CsvOutput` is produced, mirroring the fact that the source calls
  `create_csv_file` only after validation.
-/

namespace VideoRetrieval

/-- Parsed JSON documents as produced by `json.load`.  Numbers are
modelled as integers. -/
inductive Json where
  | str : String → Json
  | num : Int → Json
  | bool : Bool → Json
  | null : Json
  | arr : List Json → Json
  | obj : List (String × Json) → Json

mutual

/-- Python `repr` of a parsed JSON value (what `str` falls back to for
non-string values): dicts as `\x7b'k': v, ...\x7d`, lists in brackets,
strings in single quotes, `True` / `False` / `None`. -/
def pyRepr : Json → String
  | Json.str s => "'" ++ s ++ "'"
  | Json.num n => toString n
  | Json.bool b => if b then "True" else "False"
  | Json.null => "None"
  | Json.arr xs => "[" ++ pyReprList xs ++ "]"
  | Json.obj kvs => "\x7b" ++ pyReprObj kvs ++ "\x7d"

/-- Comma-separated `repr` of the elements of a Python list. -/
def pyReprList : List Json → String
  | [] => ""
  | [x] => pyRepr x
  | x :: y :: rest => pyRepr x ++ ", " ++ pyReprList (y :: rest)

/-- Comma-separated `repr` of the key/value pairs of a Python dict. -/
def pyReprObj : List (String × Json) → String
  | [] => ""
  | [(k, v)] => "'" ++ k ++ "': " ++ pyRepr v
  | (k, v) :: p :: rest => "'" ++ k ++ "': " ++ pyRepr v ++ ", " ++ pyReprObj (p :: rest)

end

/-- Python `str()` of a parsed JSON value: a string prints itself, every
other value prints as its `repr`. -/
def pyStr : Json → String
  | Json.str s => s
  | j => pyRepr j

/-- Python `str.lower()` on one character (ASCII letters; the source's
queries and serialized metadata are compared with `.lower()`). -/
def pyLowerChar (c : Char) : Char :=
  if 65 ≤ c.toNat ∧ c.toNat ≤ 90 then Char.ofNat (c.toNat + 32) else c

/-- Python `str.lower()`. -/
def pyLowerStr (s : String) : String := String.mk (s.data.map pyLowerChar)

/-- Python substring test `needle in hay` on character lists. -/
def containsSub (needle : List Char) : List Char → Bool
  | [] => needle.isEmpty
  | c :: t => needle.isPrefixOf (c :: t) || containsSub needle t

/-- Python `s.endswith(suffix)`. -/
def strEndsWith (s suffix : String) : Bool :=
  suffix.data.reverse.isPrefixOf s.data.reverse

/-- Index of the last `'.'` in a character list, if any. -/
def lastDotIdx (cs : List Char) : Option Nat :=
  ((cs.enum.filter (fun p => p.2 = '.')).map Prod.fst).getLast?

/-- `os.path.splitext(name)[0]` for a plain file name (no directory
separators occur in the listed names): cut at the last dot, except that
a name whose characters before its last dot are all dots is returned
whole (leading dots are part of the root, e.g. `.json` has no
extension while `.json.json` splits into `.json` + `.json`). -/
def pySplitextRoot (s : String) : String :=
  match lastDotIdx s.data with
  | none => s
  | some i => if (s.data.take i).all (fun c => c = '.') then s else String.mk (s.data.take i)

/-- Enumeration with indices starting at `n` (Python `enumerate`). -/
def enumFrom : Nat → List α → List (Nat × α)
  | _, [] => []
  | n, a :: as => (n, a) :: enumFrom (n + 1) as

/-- Python `enumerate(l)`. -/
def pyEnumerate (l : List α) : List (Nat × α) := enumFrom 0 l

/-- First-match association lookup with decidable string equality
(Python dict / `os.path.exists` checks are modelled through it). -/
def lookupKF : List (String × List String) → String → Option (List String)
  | [], _ => none
  | (k, v) :: rest, name => if k = name then some v else lookupKF rest name

/-- First-match lookup in a modelled JSON object (Python `dict.get`). -/
def lookupMeta : List (String × Json) → String → Option Json
  | [], _ => none
  | (k, v) :: rest, name => if k = name then some v else lookupMeta rest name

/-- One result record, i.e. one dict appended to `results` by the search
paths.  Optional fields model keys that a given producer omits (the mock
records carry no `keyframe_path`; `video_name` / `metadata` are read with
`dict.get` defaults by the exporter). -/
structure FrameRec where
  frame_id : String
  video_name : Option String
  keyframe_path : Option String
  metadata : Option (List (String × Json))

/-- The on-disk dataset as seen by `search_database_text`: the
`media-info` listing (absent directory = `none`; each file name paired
with its parse result, `none` = `json.load` failure), the existing
`keyframes/<video_id>` directory listings, and the database root path. -/
structure DatasetStore where
  mediaInfo : Option (List (String × Option Json))
  keyframes : List (String × List String)
  root : String

/-- The match test of source line 786:
`text_query.lower() in str(media_data).lower()`. -/
def docMatches (q : String) (doc : Json) : Bool :=
  containsSub (pyLowerStr q).data (pyLowerStr (pyStr doc)).data

/-- The record built for the `i`-th capped keyframe of a matching video
(source lines 796-805). -/
def mkKFRecord (root videoName : String) (mediaData : Json) (p : Nat × String) : FrameRec :=
  { frame_id := pySplitextRoot p.2
    video_name := some videoName
    keyframe_path := some (root ++ "/keyframes/" ++ videoName ++ "/" ++ p.2)
    metadata := some [("video_name", Json.str (videoName ++ ".mp4")),
                      ("frame_number", Json.num (Int.ofNat p.1)),
                      ("media_info", mediaData)] }

/-- The records contributed by one `media-info` file (one iteration of
the loop at source lines 776-809): skip on parse failure, derive the
video id from the file name, test the match rule, and when the keyframe
directory exists emit one record per `.jpg` file of the first ten. -/
def recordsForEntry (store : DatasetStore) (q : String) (entry : String × Option Json) :
    List FrameRec :=
  match entry.2 with
  | none => []
  | some mediaData =>
    let videoName := pySplitextRoot entry.1
    if docMatches q mediaData then
      match lookupKF store.keyframes videoName with
      | none => []
      | some listing =>
        (pyEnumerate ((listing.filter (fun f => strEndsWith f ".jpg")).take 10)).map
          (mkKFRecord store.root videoName mediaData)
    else []

/-- `search_database_text` (source lines 760-814): fail when the
`media-info` directory is missing (the inner `raise` is re-raised as
`Database search failed: ...` by the outer handler), otherwise scan the
`.json` files of the listing in order and concatenate each file's
contribution. -/
def search_database_text (store : DatasetStore) (q : String) : Except String (List FrameRec) :=
  match store.mediaInfo with
  | none => Except.error "Database search failed: Media info folder not found in database"
  | some entries =>
      Except.ok ((entries.filter (fun e => strEndsWith e.1 ".json")).flatMap
        (recordsForEntry store q))

/-- `"%0*d"`-style zero padding used by the mock generator's f-strings. -/
def padZeros (w : Nat) (n : Nat) : String :=
  String.mk (List.replicate (w - (toString n).length) '0') ++ toString n

/-- The 20 mock records built by `call_backend_text` (source lines
696-709).  The Python dict literal repeats the `frame_id` key, so the
surviving value is `frame_{i:04d}`; the `image_url` key is consulted by
no modelled operation and is not represented. -/
def mock_results : List FrameRec :=
  (List.range 20).map (fun i =>
    { frame_id := "frame_" ++ padZeros 4 i
      video_name := some ("video_" ++ toString (i / 5 + 1))
      keyframe_path := none
      metadata := some
        [("video_name", Json.str ("sample_video_" ++ toString (i / 5 + 1) ++ ".mp4")),
         ("frame_number", Json.num (Int.ofNat (i * 10))),
         ("timestamp", Json.str ("00:0" ++ toString (i / 10) ++ ":" ++ padZeros 2 ((i * 6) % 60)))] })

/-- `call_backend_text` (source lines 688-709): the real database search
when mock data is off, the fixed mock records otherwise. -/
def call_backend_text (useMock : Bool) (store : DatasetStore) (q : String) :
    Except String (List FrameRec) :=
  if useMock then Except.ok mock_results else search_database_text store q

/-! ### The Result Set -/

/-- The Result Set state: `retrieved_images` and `selected_images` of the
`VideoRetrievalUI` object. -/
structure ResultSet where
  retrieved_images : List FrameRec
  selected_images : List String

/-- `_update_results` (source lines 828-832): replace the records and
reset the selection. -/
def update_results (_rs : ResultSet) (results : List FrameRec) : ResultSet :=
  { retrieved_images := results, selected_images := [] }

/-- `toggle_selection` (source lines 920-926): append the id when turning
on and it is not yet selected, remove its first occurrence when turning
off and it is selected, otherwise leave the state alone.  The records
list is never consulted. -/
def toggle_selection (rs : ResultSet) (frame_id : String) (is_selected : Bool) : ResultSet :=
  if is_selected ∧ frame_id ∉ rs.selected_images then
    { rs with selected_images := rs.selected_images ++ [frame_id] }
  else if ¬ is_selected ∧ frame_id ∈ rs.selected_images then
    { rs with selected_images := rs.selected_images.erase frame_id }
  else rs

/-- `select_all` (source lines 954-958): select the id of every current
record. -/
def select_all (rs : ResultSet) : ResultSet :=
  { rs with selected_images := rs.retrieved_images.map (fun img => img.frame_id) }

/-- `clear_selection` (source lines 932-936). -/
def clear_selection (rs : ResultSet) : ResultSet :=
  { rs with selected_images := [] }

/-- The Result Set invariant of spec section 3: every selected id is the
id of a current record. -/
def selInv (rs : ResultSet) : Prop :=
  ∀ fid ∈ rs.selected_images, fid ∈ rs.retrieved_images.map (fun r => r.frame_id)

/-! ### The Export Writer -/

/-- The task selector. -/
inductive ExpTask where
  | KIS
  | QnA
  | TRAKE
deriving DecidableEq

/-- The `task.lower()` fragment of the output names. -/
def taskLower : ExpTask → String
  | ExpTask.KIS => "kis"
  | ExpTask.QnA => "qna"
  | ExpTask.TRAKE => "trake"

/-- Python whitespace (`str.strip` / `str.split`), ASCII part: space and
the control characters 9-13. -/
def isPySpace (c : Char) : Bool :=
  decide (c.toNat = 32 ∨ (9 ≤ c.toNat ∧ c.toNat ≤ 13))

/-- Python `str.strip()`: drop whitespace from both ends. -/
def pyStrip (s : String) : String :=
  String.mk (((s.data.dropWhile isPySpace).reverse.dropWhile isPySpace).reverse)

/-- The `video_name` written for one record (source lines 1005, 1013,
1023): `img.get('metadata', {}).get('video_name', img.get('video_name',
'unknown'))`, with the csv writer rendering a non-string cell through
`str()`. -/
def videoNameOf (r : FrameRec) : String :=
  match r.metadata with
  | some m =>
    match lookupMeta m "video_name" with
    | some v => pyStr v
    | none => r.video_name.getD "unknown"
  | none => r.video_name.getD "unknown"

/-- The records of the Result Set whose id is selected (source line 997):
`[img for img in self.retrieved_images if img['frame_id'] in
self.selected_images]`. -/
def selectedData (retrieved : List FrameRec) (sel : List String) : List FrameRec :=
  retrieved.filter (fun img => decide (img.frame_id ∈ sel))

/-- One step of the TRAKE grouping loop (source lines 1022-1027): append
the frame id to the video's entry, creating the entry at the end on
first sight (Python dicts preserve insertion order). -/
def addToGroups : List (String × List String) → String → String → List (String × List String)
  | [], v, fid => [(v, [fid])]
  | (k, fs) :: rest, v, fid =>
      if k = v then (k, fs ++ [fid]) :: rest else (k, fs) :: addToGroups rest v fid

/-- The TRAKE grouping loop over the selected records. -/
def groupFold : List (String × List String) → List FrameRec → List (String × List String)
  | gs, [] => gs
  | gs, img :: rest => groupFold (addToGroups gs (videoNameOf img) img.frame_id) rest

/-- `videos` of the TRAKE branch: the selected records grouped by
resolved video name, in insertion order. -/
def groupByVideo (sel : List FrameRec) : List (String × List String) :=
  groupFold [] sel

/-- `max_frames` (source line 1030): the largest group size. -/
def maxFrames (videos : List (String × List String)) : Nat :=
  (videos.map (fun p => p.2.length)).foldr Nat.max 0

/-- The rows written by `create_csv_file` (source lines 999-1035) for a
given task, Result Set and selection; `answer` is the already stripped
answer string of the QnA branch. -/
def csvRows (task : ExpTask) (retrieved : List FrameRec) (sel : List String) (answer : String) :
    List (List String) :=
  let selected_data := selectedData retrieved sel
  match task with
  | ExpTask.KIS => selected_data.map (fun img => [videoNameOf img, img.frame_id])
  | ExpTask.QnA => selected_data.map (fun img => [videoNameOf img, img.frame_id, answer])
  | ExpTask.TRAKE =>
    if selected_data.isEmpty then []
    else
      let videos := groupByVideo selected_data
      let mf := maxFrames videos
      videos.map (fun p => p.1 :: p.2 ++ List.replicate (mf - p.2.length) "")

/-- The application state consulted by the exporter. -/
structure AppState where
  retrieved_images : List FrameRec
  selected_images : List String
  current_task : ExpTask
  answer_entry : String
  uploaded_txt_file : Option String

/-- The observable file-system effect of `create_csv_file`: the created
timestamped directory, the file name, and the written rows. -/
structure CsvOutput where
  dirName : String
  fileName : String
  rows : List (List String)

/-- `create_csv_file` (source lines 978-1037); `timestamp` stands for
`datetime.now().strftime("%Y%m%d_%H%M%S")`.  The file name is the
uploaded TXT file's base name when one is present, else
timestamp-task. -/
def create_csv_file (st : AppState) (timestamp : String) : CsvOutput :=
  { dirName := timestamp ++ "-" ++ taskLower st.current_task
    fileName :=
      match st.uploaded_txt_file with
      | some base => base ++ ".csv"
      | none => timestamp ++ "-" ++ taskLower st.current_task ++ ".csv"
    rows := csvRows st.current_task st.retrieved_images st.selected_images
      (pyStrip st.answer_entry) }

/-- `generate_csv` (source lines 960-976): reject an empty selection,
then reject a QnA export whose stripped answer is empty, and only then
call `create_csv_file` (which performs all file I/O). -/
def generate_csv (st : AppState) (timestamp : String) : Except String CsvOutput :=
  if st.selected_images.isEmpty then Except.error "No frames selected"
  else if st.current_task = ExpTask.QnA ∧ pyStrip st.answer_entry = "" then
    Except.error "Answer is required for QnA task"
  else Except.ok (create_csv_file st timestamp)

/-! ### The Query Normalizer -/

/-- `string.punctuation`: the 32 ASCII punctuation characters, i.e. the
ASCII ranges 33-47, 58-64, 91-96 and 123-126. -/
def isPyPunct (c : Char) : Bool :=
  decide ((33 ≤ c.toNat ∧ c.toNat ≤ 47) ∨ (58 ≤ c.toNat ∧ c.toNat ≤ 64) ∨
    (91 ≤ c.toNat ∧ c.toNat ≤ 96) ∨ (123 ≤ c.toNat ∧ c.toNat ≤ 126))

/-- Python `str.split()` with no argument: split on runs of whitespace,
dropping empty pieces; `acc` holds the characters of the token being
read, in reverse. -/
def splitWS : List Char → List Char → List (List Char)
  | [], acc => if acc.isEmpty then [] else [acc.reverse]
  | c :: cs, acc =>
    if isPySpace c then
      if acc.isEmpty then splitWS cs [] else acc.reverse :: splitWS cs []
    else splitWS cs (c :: acc)

/-- `' '.join(tokens)`. -/
def joinSp : List (List Char) → List Char
  | [] => []
  | [t] => t
  | t :: u :: ts => t ++ ' ' :: joinSp (u :: ts)

/-- The text transformation of `remove_punctuations` (source lines
612-615): drop every `string.punctuation` character, then re-join the
whitespace-split tokens with single spaces. -/
def normalizeChars (cs : List Char) : List Char :=
  joinSp (splitWS (cs.filter (fun c => !isPyPunct c)) [])

/-- `remove_punctuations` as a pure string transformation. -/
def remove_punctuations (s : String) : String :=
  String.mk (normalizeChars s.data)

/-! ### Derived notions used by the statements -/

/-- The value of the grouping dict at a key, empty when the key is
absent (first-match lookup, like `getG gs k` for Python
`videos.get(k, [])`). -/
def getG : List (String × List String) → String → List String
  | [], _ => []
  | (k, fs) :: rest, name => if k = name then fs else getG rest name

/-- Specification-side description of one TRAKE group: the frame ids of
the selected records that resolve to video `v`, in the selection's
original order. -/
def fidsOf (v : String) (sel : List FrameRec) : List String :=
  (sel.filter (fun r => decide (videoNameOf r = v))).map (fun r => r.frame_id)

/-- Specification-side `max_frames`: the largest number of selected
records sharing one resolved video name. -/
def maxGroupLen (sel : List FrameRec) : Nat :=
  ((sel.map videoNameOf).map (fun v => (fidsOf v sel).length)).foldr Nat.max 0

/-- `dict.get("frame_number")` on a record's metadata. -/
def metaFrameNumber (r : FrameRec) : Option Json :=
  match r.metadata with
  | some m => lookupMeta m "frame_number"
  | none => none

/-! ### Concrete inputs used by witnesses and counterexamples -/

/-- A QnA export request with a whitespace-only answer. -/
def qnaBlankState : AppState :=
  { retrieved_images := []
    selected_images := ["f1"]
    current_task := ExpTask.QnA
    answer_entry := "  "
    uploaded_txt_file := none }

/-- A record with id `fw`, for the Result Set witnesses. -/
def recW : FrameRec :=
  { frame_id := "fw", video_name := none, keyframe_path := none, metadata := none }

/-- Two matching videos whose keyframe directories contain the same file
name `001.jpg`. -/
def dupIdStore : DatasetStore :=
  { mediaInfo := some [("v1.json", some (Json.obj [("title", Json.str "cat")])),
                       ("v2.json", some (Json.obj [("title", Json.str "cat")]))]
    keyframes := [("v1", ["001.jpg"]), ("v2", ["001.jpg"])]
    root := "db" }

/-- A store whose `media-info` listing holds the two distinct file names
`.json` and `.json.json`; by the leading-dot rule of `os.path.splitext`
both derive the video id `.json`. -/
def dotStore : DatasetStore :=
  { mediaInfo := some [(".json", some (Json.obj [("title", Json.str "cat video")])),
                       (".json.json", some (Json.obj [("title", Json.str "cat video")]))]
    keyframes := [(".json", ["k0.jpg", "k1.jpg", "k2.jpg", "k3.jpg", "k4.jpg",
                             "k5.jpg", "k6.jpg", "k7.jpg", "k8.jpg", "k9.jpg"])]
    root := "db" }

/-- The parsed document of the spec's worked example. -/
def catDoc : Json := Json.obj [("title", Json.str "cat video")]

/-- Twelve keyframe files for the spec's worked example. -/
def catListing : List String :=
  ["k00.jpg", "k01.jpg", "k02.jpg", "k03.jpg", "k04.jpg", "k05.jpg",
   "k06.jpg", "k07.jpg", "k08.jpg", "k09.jpg", "k10.jpg", "k11.jpg"]

/-- A store with one metadata file `v1.json` about a cat video and
twelve keyframes for `v1` — the worked example of the spec. -/
def catStore : DatasetStore :=
  { mediaInfo := some [("v1.json", some catDoc)]
    keyframes := [("v1", catListing)]
    root := "db" }

/-- First selected record of video A, for the TRAKE witness. -/
def recT1 : FrameRec :=
  { frame_id := "f1", video_name := some "A", keyframe_path := none, metadata := none }

/-- Second selected record of video A, for the TRAKE witness. -/
def recT2 : FrameRec :=
  { frame_id := "f2", video_name := some "A", keyframe_path := none, metadata := none }

/-- The selected record of video B, for the TRAKE witness. -/
def recT3 : FrameRec :=
  { frame_id := "f3", video_name := some "B", keyframe_path := none, metadata := none }

/-! ### General list helpers -/

lemma filter_map_eq_filterMap {α β : Type} (p : α → Bool) (f : α → β) (l : List α) :
    (l.filter p).map f = l.filterMap (fun a => if p a then some (f a) else none) := by
  induction l with
  | nil => rfl
  | cons a l ih =>
    cases hpa : p a <;> simp [List.filter_cons, List.filterMap_cons, hpa, ih]

lemma filter_flatMap {α β : Type} (p : β → Bool) (f : α → List β) (l : List α) :
    (l.flatMap f).filter p = l.flatMap (fun a => (f a).filter p) := by
  induction l with
  | nil => rfl
  | cons a l ih => simp [List.flatMap_cons, List.filter_append, ih]

lemma flatMap_eq_nil_of {α β : Type} (f : α → List β) (l : List α)
    (h : ∀ a ∈ l, f a = []) : l.flatMap f = [] := by
  induction l with
  | nil => rfl
  | cons a l ih =>
    rw [List.flatMap_cons, h a (List.mem_cons_self a l), List.nil_append]
    exact ih (fun b hb => h b (List.mem_cons_of_mem a hb))

lemma flatMap_eq_single {α β : Type} (f : α → List β) (l : List α) (a : α)
    (hnd : l.Nodup) (ha : a ∈ l) (h0 : ∀ b ∈ l, b ≠ a → f b = []) :
    l.flatMap f = f a := by
  induction l with
  | nil => exact absurd ha (List.not_mem_nil a)
  | cons x l ih =>
    rcases List.nodup_cons.mp hnd with ⟨hx, hl⟩
    rcases List.mem_cons.mp ha with rfl | ha'
    · rw [List.flatMap_cons,
        flatMap_eq_nil_of f l (fun b hb => h0 b (List.mem_cons_of_mem a hb)
          (fun hba => hx (hba ▸ hb))), List.append_nil]
    · rw [List.flatMap_cons, h0 x (List.mem_cons_self x l)
        (fun hxa => hx (hxa ▸ ha')), List.nil_append]
      exact ih hl ha' (fun b hb hba => h0 b (List.mem_cons_of_mem x hb) hba)

lemma enumFrom_map_snd {α β : Type} (g : α → β) : ∀ (n : Nat) (l : List α),
    (enumFrom n l).map (fun p => g p.2) = l.map g
  | _, [] => rfl
  | n, a :: as => by simp [enumFrom, enumFrom_map_snd g (n + 1) as]

lemma enumFrom_map_fst {β : Type} {α : Type} (g : Nat → β) : ∀ (n : Nat) (l : List α),
    (enumFrom n l).map (fun p => g p.1) = (List.range' n l.length).map g
  | _, [] => rfl
  | n, a :: as => by
    simp [enumFrom, List.range'_succ, enumFrom_map_fst g (n + 1) as]

lemma length_enumFrom {α : Type} : ∀ (n : Nat) (l : List α),
    (enumFrom n l).length = l.length
  | _, [] => rfl
  | n, a :: as => by simp [enumFrom, length_enumFrom (n + 1) as]

lemma le_foldr_max {a : Nat} : ∀ {l : List Nat}, a ∈ l → a ≤ l.foldr Nat.max 0
  | [], h => absurd h (List.not_mem_nil a)
  | b :: l, h => by
    rcases List.mem_cons.mp h with rfl | h'
    · exact Nat.le_max_left a (l.foldr Nat.max 0)
    · exact Nat.le_trans (le_foldr_max h') (Nat.le_max_right b (l.foldr Nat.max 0))

lemma foldr_max_le {b : Nat} : ∀ {l : List Nat}, (∀ a ∈ l, a ≤ b) → l.foldr Nat.max 0 ≤ b
  | [], _ => Nat.zero_le b
  | x :: l, h => by
    exact Nat.max_le.mpr ⟨h x (List.mem_cons_self x l),
      foldr_max_le (fun a ha => h a (List.mem_cons_of_mem x ha))⟩

/-! ### C10 — KIS/QnA export rows follow the Result Set's record order -/

/-- C10: for KIS and QnA exports the rows are produced by one pass over
the Result Set's records in their stored (search-produced) order,
emitting one row for every record whose `frame_id` is in the selected-id
set — so the written order is the record order, not the selection order,
and two records sharing a selected `frame_id` are both exported. -/
theorem kis_qna_row_order (retrieved : List FrameRec) (ids : List String) (ans : String) :
    csvRows ExpTask.KIS retrieved ids ans
      = retrieved.filterMap
          (fun r => if r.frame_id ∈ ids then some [videoNameOf r, r.frame_id] else none) ∧
    csvRows ExpTask.QnA retrieved ids ans
      = retrieved.filterMap
          (fun r => if r.frame_id ∈ ids then some [videoNameOf r, r.frame_id, ans] else none) := by
  constructor
  · show (selectedData retrieved ids).map _ = _
    rw [selectedData, filter_map_eq_filterMap]
    simp only [decide_eq_true_eq]
  · show (selectedData retrieved ids).map _ = _
    rw [selectedData, filter_map_eq_filterMap]
    simp only [decide_eq_true_eq]

/-! ### C4 — missing media-info directory fails the search -/

/-- C4: when the `media-info` collection directory is absent, the search
fails with the wrapped not-found error and in particular never returns a
result sequence (empty or otherwise). -/
theorem search_missing_media_info (kfs : List (String × List String)) (root q : String) :
    search_database_text { mediaInfo := none, keyframes := kfs, root := root } q
      = Except.error "Database search failed: Media info folder not found in database" ∧
    ∀ res, search_database_text { mediaInfo := none, keyframes := kfs, root := root } q
      ≠ Except.ok res := by
  refine ⟨rfl, ?_⟩
  intro res h
  simp [search_database_text] at h

/-! ### C5 — export validation happens before any file I/O -/

/-- C5: an export request with an empty selection, or a QnA export whose
answer strips to the empty string, is answered with a validation error;
`create_csv_file` (the function doing all directory creation and file
writing) is never reached, so no `CsvOutput` is produced. -/
theorem generate_csv_validation (st : AppState) (ts : String)
    (h : st.selected_images = [] ∨
      (st.current_task = ExpTask.QnA ∧ pyStrip st.answer_entry = "")) :
    (∃ msg, generate_csv st ts = Except.error msg) ∧
    ∀ out, generate_csv st ts ≠ Except.ok out := by
  have herr : ∃ msg, generate_csv st ts = Except.error msg := by
    rcases h with h | h
    · exact ⟨"No frames selected", by simp [generate_csv, h]⟩
    · cases hsel : st.selected_images.isEmpty
      · exact ⟨"Answer is required for QnA task", by simp [generate_csv, hsel, h.1, h.2]⟩
      · exact ⟨"No frames selected", by simp [generate_csv, hsel]⟩
  refine ⟨herr, ?_⟩
  intro out hok
  rcases herr with ⟨msg, hmsg⟩
  rw [hmsg] at hok
  exact Except.noConfusion hok

theorem generate_csv_validation_witness :
    (qnaBlankState.selected_images = [] ∨
      (qnaBlankState.current_task = ExpTask.QnA ∧ pyStrip qnaBlankState.answer_entry = "")) ∧
    ((∃ msg, generate_csv qnaBlankState "ts" = Except.error msg) ∧
      ∀ out, generate_csv qnaBlankState "ts" ≠ Except.ok out) :=
  ⟨Or.inr ⟨rfl, rfl⟩, generate_csv_validation qnaBlankState "ts" (Or.inr ⟨rfl, rfl⟩)⟩

/-! ### C8 — the Result Set invariant under the operations -/

/-- C8 (amended): `replace` resets the selection to empty, re-establishing
the invariant; `selectAll` and `clearSelection` leave it intact; and
`toggle` leaves it intact when the toggled id belongs to a current
record, which is the only kind of toggle the UI issues.  (As stated the
claim fails: `toggle_selection` never consults the records, so toggling
an absent id on inserts it and breaks the invariant — see the
counterexample.) -/
theorem result_set_invariant_ops (rs : ResultSet) (recs : List FrameRec) (fid : String)
    (b : Bool) :
    selInv (update_results rs recs) ∧ selInv (select_all rs) ∧ selInv (clear_selection rs) ∧
    (selInv rs → fid ∈ rs.retrieved_images.map (fun r => r.frame_id) →
      selInv (toggle_selection rs fid b)) := by
  refine ⟨?_, ?_, ?_, ?_⟩
  · intro x hx; exact absurd hx (List.not_mem_nil x)
  · intro x hx; exact hx
  · intro x hx; exact absurd hx (List.not_mem_nil x)
  · intro hinv hfid
    unfold toggle_selection
    split
    · intro x hx
      rcases List.mem_append.mp hx with h | h
      · exact hinv x h
      · rw [List.mem_singleton] at h; subst h; exact hfid
    · split
      · intro x hx
        exact hinv x (List.mem_of_mem_erase hx)
      · exact hinv

theorem result_set_invariant_ops_witness :
    "fw" ∈ (ResultSet.mk [recW] []).retrieved_images.map (fun r => r.frame_id) ∧
    selInv (toggle_selection (ResultSet.mk [recW] []) "fw" true) := by
  have hmem : "fw" ∈ (ResultSet.mk [recW] []).retrieved_images.map (fun r => r.frame_id) := by
    simp [recW]
  have hinv : selInv (ResultSet.mk [recW] []) := by
    intro fid h; exact absurd h (List.not_mem_nil fid)
  exact ⟨hmem, (result_set_invariant_ops (ResultSet.mk [recW] []) [] "fw" true).2.2.2 hinv hmem⟩

/-- C8 counterexample: the empty Result Set satisfies the invariant, yet
toggling the absent id `x` on puts `x` into `selected` and breaks it —
`toggle_selection` does not drop or reject ids that match no record. -/
theorem result_set_invariant_cex :
    selInv (ResultSet.mk [] []) ∧
    ¬ selInv (toggle_selection (ResultSet.mk [] []) "x" true) := by
  constructor
  · intro fid h; exact absurd h (List.not_mem_nil fid)
  · intro h
    have hx := h "x" (by simp [toggle_selection])
    simp [toggle_selection] at hx

/-! ### C9 — toggle on an id absent from the records -/

/-- C9 (amended): `toggle_selection` never consults the records list.
For an id not currently selected, toggling off is a no-op while toggling
on appends the id — even when the id matches no record; for an id
currently selected, toggling on is a no-op while toggling off removes
its first occurrence. -/
theorem toggle_selection_semantics (rs : ResultSet) (fid : String) :
    (fid ∉ rs.selected_images → toggle_selection rs fid false = rs) ∧
    (fid ∉ rs.selected_images → toggle_selection rs fid true
      = { rs with selected_images := rs.selected_images ++ [fid] }) ∧
    (fid ∈ rs.selected_images → toggle_selection rs fid true = rs) ∧
    (fid ∈ rs.selected_images → toggle_selection rs fid false
      = { rs with selected_images := rs.selected_images.erase fid }) := by
  refine ⟨?_, ?_, ?_, ?_⟩ <;> intro h <;> simp [toggle_selection, h]

theorem toggle_selection_semantics_witness :
    "z" ∉ (ResultSet.mk [] ["a"]).selected_images ∧
    toggle_selection (ResultSet.mk [] ["a"]) "z" false = ResultSet.mk [] ["a"] := by
  have h : "z" ∉ (ResultSet.mk [] ["a"]).selected_images := by decide
  exact ⟨h, (toggle_selection_semantics (ResultSet.mk [] ["a"]) "z").1 h⟩

/-- C9 counterexample: `y` matches no record of the empty Result Set,
yet `toggle(y, on)` changes the selection from `[]` to `[y]` — not a
no-op. -/
theorem toggle_absent_id_cex :
    "y" ∉ (ResultSet.mk [] []).retrieved_images.map (fun r => r.frame_id) ∧
    (toggle_selection (ResultSet.mk [] []) "y" true).selected_images ≠
      (ResultSet.mk [] []).selected_images := by
  constructor
  · simp
  · simp [toggle_selection]

/-! ### C7 — frame_id uniqueness inside one result sequence -/

/-- C7 counterexample: the real-dataset search derives `frame_id` from
the keyframe file name only, so two matching videos that both own a
keyframe `001.jpg` produce one result sequence whose ids are
`[001, 001]` — not unique. -/
theorem frame_id_unique_cex :
    (search_database_text dupIdStore "cat").map (fun l => l.map (fun r => r.frame_id))
      = Except.ok ["001", "001"] ∧
    ¬ (["001", "001"] : List String).Nodup :=
  ⟨rfl, by decide⟩

/-- C7 (amended): the mock generator does assign pairwise-distinct
sequential identifiers (`frame_0000` … `frame_0019`), so a Result Set it
produces has unique `frame_id`s; the real-dataset search derives ids
from keyframe file names and offers no such guarantee (see the
counterexample). -/
theorem frame_id_unique_mock (store : DatasetStore) (q : String) :
    ∃ res, call_backend_text true store q = Except.ok res ∧
      (res.map (fun r => r.frame_id)).Nodup :=
  ⟨mock_results, rfl, by decide⟩

/-! ### C6 — the query normalizer is idempotent -/

lemma splitWS_token_chars (cs : List Char) : ∀ (acc t : List Char), t ∈ splitWS cs acc →
    ∀ c ∈ t, c ∈ cs ∨ c ∈ acc := by
  induction cs with
  | nil =>
    intro acc t ht c hc
    simp only [splitWS] at ht
    by_cases hacc : acc.isEmpty = true
    · rw [if_pos hacc] at ht
      exact absurd ht (List.not_mem_nil t)
    · rw [if_neg hacc] at ht
      rw [List.mem_singleton] at ht
      subst ht
      exact Or.inr (List.mem_reverse.mp hc)
  | cons x cs ih =>
    intro acc t ht c hc
    simp only [splitWS] at ht
    by_cases hx : isPySpace x = true
    · rw [if_pos hx] at ht
      by_cases hacc : acc.isEmpty = true
      · rw [if_pos hacc] at ht
        rcases ih [] t ht c hc with h | h
        · exact Or.inl (List.mem_cons_of_mem x h)
        · exact absurd h (List.not_mem_nil c)
      · rw [if_neg hacc] at ht
        rcases List.mem_cons.mp ht with rfl | ht'
        · exact Or.inr (List.mem_reverse.mp hc)
        · rcases ih [] t ht' c hc with h | h
          · exact Or.inl (List.mem_cons_of_mem x h)
          · exact absurd h (List.not_mem_nil c)
    · rw [if_neg hx] at ht
      rcases ih (x :: acc) t ht c hc with h | h
      · exact Or.inl (List.mem_cons_of_mem x h)
      · rcases List.mem_cons.mp h with rfl | h'
        · exact Or.inl (List.mem_cons_self c cs)
        · exact Or.inr h'

lemma splitWS_token_ne_nil (cs : List Char) : ∀ (acc t : List Char), t ∈ splitWS cs acc →
    t ≠ [] := by
  induction cs with
  | nil =>
    intro acc t ht
    simp only [splitWS] at ht
    by_cases hacc : acc.isEmpty = true
    · rw [if_pos hacc] at ht
      exact absurd ht (List.not_mem_nil t)
    · rw [if_neg hacc] at ht
      rw [List.mem_singleton] at ht
      subst ht
      intro hrev
      exact hacc (by rw [List.reverse_eq_nil_iff.mp hrev]; rfl)
  | cons x cs ih =>
    intro acc t ht
    simp only [splitWS] at ht
    by_cases hx : isPySpace x = true
    · rw [if_pos hx] at ht
      by_cases hacc : acc.isEmpty = true
      · rw [if_pos hacc] at ht
        exact ih [] t ht
      · rw [if_neg hacc] at ht
        rcases List.mem_cons.mp ht with rfl | ht'
        · intro hrev
          exact hacc (by rw [List.reverse_eq_nil_iff.mp hrev]; rfl)
        · exact ih [] t ht'
    · rw [if_neg hx] at ht
      exact ih (x :: acc) t ht

lemma splitWS_token_no_space (cs : List Char) : ∀ (acc : List Char),
    (∀ c ∈ acc, isPySpace c = false) → ∀ t ∈ splitWS cs acc, ∀ c ∈ t, isPySpace c = false := by
  induction cs with
  | nil =>
    intro acc hacc t ht c hc
    simp only [splitWS] at ht
    by_cases he : acc.isEmpty = true
    · rw [if_pos he] at ht
      exact absurd ht (List.not_mem_nil t)
    · rw [if_neg he] at ht
      rw [List.mem_singleton] at ht
      subst ht
      exact hacc c (List.mem_reverse.mp hc)
  | cons x cs ih =>
    intro acc hacc t ht c hc
    simp only [splitWS] at ht
    by_cases hx : isPySpace x = true
    · rw [if_pos hx] at ht
      by_cases he : acc.isEmpty = true
      · rw [if_pos he] at ht
        exact ih [] (fun d hd => absurd hd (List.not_mem_nil d)) t ht c hc
      · rw [if_neg he] at ht
        rcases List.mem_cons.mp ht with rfl | ht'
        · exact hacc c (List.mem_reverse.mp hc)
        · exact ih [] (fun d hd => absurd hd (List.not_mem_nil d)) t ht' c hc
    · rw [if_neg hx] at ht
      refine ih (x :: acc) ?_ t ht c hc
      intro d hd
      rcases List.mem_cons.mp hd with rfl | hd'
      · exact Bool.eq_false_iff.mpr hx
      · exact hacc d hd'

lemma splitWS_append : ∀ (t : List Char), (∀ c ∈ t, isPySpace c = false) →
    ∀ (cs acc : List Char), splitWS (t ++ cs) acc = splitWS cs (t.reverse ++ acc) := by
  intro t
  induction t with
  | nil => intro _ cs acc; simp
  | cons x t ih =>
    intro hns cs acc
    have hx : isPySpace x = false := hns x (List.mem_cons_self x t)
    have h1 : splitWS (x :: (t ++ cs)) acc = splitWS (t ++ cs) (x :: acc) := by
      simp only [splitWS]
      rw [if_neg (by rw [hx]; exact Bool.false_ne_true)]
    rw [List.cons_append, h1,
      ih (fun c hc => hns c (List.mem_cons_of_mem x hc)) cs (x :: acc)]
    simp [List.append_assoc]

lemma isEmpty_false_of_ne_nil {α : Type} {l : List α} (h : l ≠ []) : l.isEmpty = false := by
  cases l with
  | nil => exact absurd rfl h
  | cons a l => rfl

lemma splitWS_joinSp : ∀ (ts : List (List Char)),
    (∀ t ∈ ts, t ≠ []) → (∀ t ∈ ts, ∀ c ∈ t, isPySpace c = false) →
    splitWS (joinSp ts) [] = ts := by
  intro ts
  induction ts with
  | nil => intro _ _; rfl
  | cons t ts ih =>
    intro hne hns
    have htns : ∀ c ∈ t, isPySpace c = false := hns t (List.mem_cons_self t ts)
    have htne : t ≠ [] := hne t (List.mem_cons_self t ts)
    have hrev : t.reverse.isEmpty = false :=
      isEmpty_false_of_ne_nil (fun h => htne (List.reverse_eq_nil_iff.mp h))
    cases ts with
    | nil =>
      have h4 := splitWS_append t htns [] []
      rw [List.append_nil, List.append_nil] at h4
      rw [show joinSp [t] = t from rfl, h4]
      simp only [splitWS]
      rw [if_neg (by rw [hrev]; exact Bool.false_ne_true), List.reverse_reverse]
    | cons u ts' =>
      have h4 := splitWS_append t htns (' ' :: joinSp (u :: ts')) []
      rw [List.append_nil] at h4
      rw [show joinSp (t :: u :: ts') = t ++ ' ' :: joinSp (u :: ts') from rfl, h4]
      simp only [splitWS]
      rw [if_pos (show isPySpace ' ' = true from rfl),
        if_neg (by rw [hrev]; exact Bool.false_ne_true), List.reverse_reverse]
      rw [ih (fun v hv => hne v (List.mem_cons_of_mem t hv))
        (fun v hv => hns v (List.mem_cons_of_mem t hv))]

lemma mem_joinSp : ∀ (ts : List (List Char)) (c : Char), c ∈ joinSp ts →
    c = ' ' ∨ ∃ t ∈ ts, c ∈ t := by
  intro ts
  induction ts with
  | nil => intro c hc; exact absurd hc (List.not_mem_nil c)
  | cons t ts ih =>
    cases ts with
    | nil =>
      intro c hc
      exact Or.inr ⟨t, List.mem_cons_self t [], hc⟩
    | cons u ts' =>
      intro c hc
      rw [show joinSp (t :: u :: ts') = t ++ ' ' :: joinSp (u :: ts') from rfl] at hc
      rcases List.mem_append.mp hc with h | h
      · exact Or.inr ⟨t, List.mem_cons_self t (u :: ts'), h⟩
      · rcases List.mem_cons.mp h with rfl | h'
        · exact Or.inl rfl
        · rcases ih c h' with h'' | ⟨t', ht', hc'⟩
          · exact Or.inl h''
          · exact Or.inr ⟨t', List.mem_cons_of_mem t ht', hc'⟩

lemma normalizeChars_idem (cs : List Char) :
    normalizeChars (normalizeChars cs) = normalizeChars cs := by
  have hne : ∀ t ∈ splitWS (cs.filter (fun c => !isPyPunct c)) [], t ≠ [] :=
    fun t ht => splitWS_token_ne_nil _ [] t ht
  have hns : ∀ t ∈ splitWS (cs.filter (fun c => !isPyPunct c)) [],
      ∀ c ∈ t, isPySpace c = false :=
    splitWS_token_no_space _ [] (fun c hc => absurd hc (List.not_mem_nil c))
  have hnp : ∀ c ∈ joinSp (splitWS (cs.filter (fun c => !isPyPunct c)) []),
      (fun c => !isPyPunct c) c = true := by
    intro c hc
    rcases mem_joinSp _ c hc with rfl | ⟨t, ht, hct⟩
    · decide
    · rcases splitWS_token_chars _ [] t ht c hct with h | h
      · exact (List.mem_filter.mp h).2
      · exact absurd h (List.not_mem_nil c)
  show joinSp (splitWS ((joinSp (splitWS (cs.filter (fun c => !isPyPunct c)) [])).filter
      (fun c => !isPyPunct c)) []) = joinSp (splitWS (cs.filter (fun c => !isPyPunct c)) [])
  rw [List.filter_eq_self.mpr hnp, splitWS_joinSp _ hne hns]

/-- C6: the normalization performed by `remove_punctuations` (drop every
`string.punctuation` character, collapse whitespace runs to single
spaces, trim the ends) is idempotent; the worked examples of the spec
hold as well. -/
theorem remove_punctuations_idempotent :
    (∀ s, remove_punctuations (remove_punctuations s) = remove_punctuations s) ∧
    remove_punctuations "a, b!  c" = "a b c" ∧
    remove_punctuations "" = "" := by
  refine ⟨?_, by decide, rfl⟩
  intro s
  show String.mk (normalizeChars (String.mk (normalizeChars s.data)).data)
      = String.mk (normalizeChars s.data)
  exact congrArg String.mk (normalizeChars_idem s.data)

/-! ### C3 — the match rule of the linear metadata search -/

lemma enumFrom_ne_nil {α : Type} {l : List α} (h : l ≠ []) (n : Nat) : enumFrom n l ≠ [] := by
  cases l with
  | nil => exact absurd rfl h
  | cons a as => simp [enumFrom]

lemma take_ne_nil {α : Type} {l : List α} (h : l ≠ []) {n : Nat} (hn : 0 < n) :
    l.take n ≠ [] := by
  cases l with
  | nil => exact absurd rfl h
  | cons a as =>
    cases n with
    | zero => exact absurd hn (by simp)
    | succ n => simp [List.take]

/-- C3: a document matches exactly when the case-folded query occurs in
the case-folded `str()` serialization of the whole parsed document
(`docMatches`); the search result is the in-listing-order concatenation
of each `.json` file's contribution, a file whose document does not
match (or fails to parse) contributes nothing, a matching file with a
present keyframe directory holding at least one `.jpg` contributes at
least one record, and a query matching no document yields the empty
sequence — there is no ranking or scoring anywhere. -/
theorem search_match_rule (root : String) (kfs : List (String × List String))
    (entries : List (String × Option Json)) (q : String) :
    ∃ res, search_database_text ⟨some entries, kfs, root⟩ q = Except.ok res ∧
      res = (entries.filter (fun e => strEndsWith e.1 ".json")).flatMap
          (recordsForEntry ⟨some entries, kfs, root⟩ q) ∧
      (∀ e : String × Option Json, ∀ doc : Json, e.2 = some doc → docMatches q doc = false →
        recordsForEntry ⟨some entries, kfs, root⟩ q e = []) ∧
      (∀ e : String × Option Json, ∀ doc : Json, ∀ listing : List String,
        e.2 = some doc → docMatches q doc = true →
        lookupKF kfs (pySplitextRoot e.1) = some listing →
        listing.filter (fun f => strEndsWith f ".jpg") ≠ [] →
        recordsForEntry ⟨some entries, kfs, root⟩ q e ≠ []) ∧
      ((∀ e ∈ entries, ∀ doc : Json, e.2 = some doc → docMatches q doc = false) →
        res = []) := by
  refine ⟨_, rfl, rfl, ?_, ?_, ?_⟩
  · intro e doc h2 hfalse
    simp [recordsForEntry, h2, hfalse]
  · intro e doc listing h2 htrue hkf hjpg
    simp only [recordsForEntry, h2, htrue, if_true, hkf]
    intro hnil
    rcases List.map_eq_nil_iff.mp hnil with h
    exact enumFrom_ne_nil (take_ne_nil hjpg (by decide)) 0 h
  · intro hall
    apply flatMap_eq_nil_of
    intro e he
    have hent : e ∈ entries := (List.mem_filter.mp he).1
    cases h2 : e.2 with
    | none => simp [recordsForEntry, h2]
    | some doc => simp [recordsForEntry, h2, hall e hent doc h2]

/-! ### C2 — the TRAKE row layout -/

lemma getG_addToGroups (gs : List (String × List String)) (v fid w : String) :
    getG (addToGroups gs v fid) w = if v = w then getG gs w ++ [fid] else getG gs w := by
  induction gs with
  | nil => by_cases hvw : v = w <;> simp [addToGroups, getG, hvw]
  | cons p gs ih =>
    obtain ⟨k, fs⟩ := p
    by_cases hk : k = v
    · subst hk
      by_cases hw : k = w <;> simp [addToGroups, getG, hw]
    · by_cases hw : v = w <;> by_cases hkw : k = w <;>
        simp_all [addToGroups, getG]

lemma mem_keys_addToGroups (gs : List (String × List String)) (v fid w : String) :
    w ∈ (addToGroups gs v fid).map Prod.fst ↔ w ∈ gs.map Prod.fst ∨ w = v := by
  induction gs with
  | nil => simp [addToGroups]
  | cons p gs ih =>
    obtain ⟨k, fs⟩ := p
    by_cases hk : k = v
    · subst hk
      simp [addToGroups]
      tauto
    · simp [addToGroups, hk, ih, List.mem_cons]
      tauto

lemma nodup_keys_addToGroups (gs : List (String × List String)) (v fid : String)
    (h : (gs.map Prod.fst).Nodup) : ((addToGroups gs v fid).map Prod.fst).Nodup := by
  induction gs with
  | nil => simp [addToGroups]
  | cons p gs ih =>
    obtain ⟨k, fs⟩ := p
    rw [List.map_cons, List.nodup_cons] at h
    obtain ⟨hk', hnd⟩ := h
    by_cases hkv : k = v
    · subst hkv
      simpa [addToGroups] using List.nodup_cons.mpr ⟨hk', hnd⟩
    · simp only [addToGroups, if_neg hkv, List.map_cons]
      rw [List.nodup_cons]
      refine ⟨?_, ih hnd⟩
      intro hmem
      rcases (mem_keys_addToGroups gs v fid k).mp hmem with h1 | h1
      · exact hk' h1
      · exact hkv h1

lemma getG_groupFold : ∀ (sel : List FrameRec) (gs : List (String × List String)) (w : String),
    getG (groupFold gs sel) w = getG gs w ++ fidsOf w sel := by
  intro sel
  induction sel with
  | nil => intro gs w; simp [groupFold, fidsOf]
  | cons x sel ih =>
    intro gs w
    show getG (groupFold (addToGroups gs (videoNameOf x) x.frame_id) sel) w = _
    rw [ih, getG_addToGroups]
    by_cases hw : videoNameOf x = w
    · rw [if_pos hw]
      simp [fidsOf, List.filter_cons, hw]
    · rw [if_neg hw]
      simp [fidsOf, List.filter_cons, hw]

lemma mem_keys_groupFold : ∀ (sel : List FrameRec) (gs : List (String × List String))
    (w : String), w ∈ (groupFold gs sel).map Prod.fst ↔
      w ∈ gs.map Prod.fst ∨ w ∈ sel.map videoNameOf := by
  intro sel
  induction sel with
  | nil => intro gs w; simp [groupFold]
  | cons x sel ih =>
    intro gs w
    show w ∈ (groupFold (addToGroups gs (videoNameOf x) x.frame_id) sel).map Prod.fst ↔ _
    rw [ih, mem_keys_addToGroups]
    simp [List.mem_cons]
    tauto

lemma nodup_keys_groupFold : ∀ (sel : List FrameRec) (gs : List (String × List String)),
    (gs.map Prod.fst).Nodup → ((groupFold gs sel).map Prod.fst).Nodup := by
  intro sel
  induction sel with
  | nil => intro gs h; exact h
  | cons x sel ih =>
    intro gs h
    exact ih _ (nodup_keys_addToGroups gs (videoNameOf x) x.frame_id h)

lemma getG_of_mem : ∀ (gs : List (String × List String)), (gs.map Prod.fst).Nodup →
    ∀ k fs, (k, fs) ∈ gs → getG gs k = fs := by
  intro gs
  induction gs with
  | nil => intro _ k fs h; exact absurd h (List.not_mem_nil _)
  | cons p gs ih =>
    obtain ⟨k0, fs0⟩ := p
    intro hnd k fs hmem
    rw [List.map_cons, List.nodup_cons] at hnd
    obtain ⟨hk0, hnd'⟩ := hnd
    rcases List.mem_cons.mp hmem with heq | hmem'
    · cases heq
      simp [getG]
    · have hk : k0 ≠ k := by
        intro h
        exact hk0 (h ▸ (List.mem_map_of_mem Prod.fst hmem' : (k, fs).1 ∈ gs.map Prod.fst))
      simp only [getG, if_neg hk]
      exact ih hnd' k fs hmem'

lemma mem_of_mem_keys : ∀ (gs : List (String × List String)) (w : String),
    w ∈ gs.map Prod.fst → (w, getG gs w) ∈ gs := by
  intro gs
  induction gs with
  | nil => intro w h; exact absurd h (List.not_mem_nil w)
  | cons p gs ih =>
    obtain ⟨k, fs⟩ := p
    intro w hw
    by_cases hkw : k = w
    · subst hkw
      simp [getG]
    · have hw' : w ∈ gs.map Prod.fst := by
        rw [List.map_cons, List.mem_cons] at hw
        rcases hw with h | h
        · exact absurd h.symm hkw
        · exact h
      simp only [getG, if_neg hkw]
      exact List.mem_cons_of_mem _ (ih w hw')

lemma maxFrames_groupByVideo (sel : List FrameRec) :
    maxFrames (groupByVideo sel) = maxGroupLen sel := by
  have hknd : ((groupByVideo sel).map Prod.fst).Nodup :=
    nodup_keys_groupFold sel [] (by simp)
  have hgetG : ∀ w, getG (groupByVideo sel) w = fidsOf w sel := by
    intro w
    have h := getG_groupFold sel [] w
    simpa [getG] using h
  apply Nat.le_antisymm
  · apply foldr_max_le
    intro a ha
    rcases List.mem_map.mp ha with ⟨p, hp, rfl⟩
    obtain ⟨k, fs⟩ := p
    have hfs : fs = fidsOf k sel := by
      rw [← getG_of_mem _ hknd k fs hp, hgetG]
    have hkmem : k ∈ sel.map videoNameOf := by
      have := (mem_keys_groupFold sel [] k).mp
        (List.mem_map_of_mem Prod.fst hp)
      simpa using this
    have hmem2 : (fidsOf k sel).length ∈
        (sel.map videoNameOf).map (fun v => (fidsOf v sel).length) :=
      List.mem_map_of_mem _ hkmem
    show fs.length ≤ maxGroupLen sel
    rw [hfs]
    exact le_foldr_max hmem2
  · apply foldr_max_le
    intro a ha
    rcases List.mem_map.mp ha with ⟨v, hv, rfl⟩
    have hvkeys : v ∈ (groupByVideo sel).map Prod.fst :=
      (mem_keys_groupFold sel [] v).mpr (Or.inr hv)
    have hpmem : (v, getG (groupByVideo sel) v) ∈ groupByVideo sel :=
      mem_of_mem_keys _ v hvkeys
    have : (getG (groupByVideo sel) v).length ∈
        (groupByVideo sel).map (fun p => p.2.length) :=
      List.mem_map_of_mem (fun p => p.2.length) hpmem
    have hle := le_foldr_max this
    rw [hgetG] at hle
    exact hle

/-- C2: a TRAKE export with a non-empty selection writes one row per
distinct resolved video name; each row is the video name followed by
that video's selected frame ids in the selection's original order,
right-padded with empty fields; and every row has width `1 +` the
largest group size. -/
theorem trake_rows_shape (retrieved : List FrameRec) (ids : List String) (ans : String)
    (hne : selectedData retrieved ids ≠ []) :
    ((csvRows ExpTask.TRAKE retrieved ids ans).map (fun r => r.headD "")).Nodup ∧
    (∀ v, v ∈ (csvRows ExpTask.TRAKE retrieved ids ans).map (fun r => r.headD "") ↔
      v ∈ (selectedData retrieved ids).map videoNameOf) ∧
    (∀ r ∈ csvRows ExpTask.TRAKE retrieved ids ans, ∃ v,
      v ∈ (selectedData retrieved ids).map videoNameOf ∧
      r = v :: fidsOf v (selectedData retrieved ids)
        ++ List.replicate (maxGroupLen (selectedData retrieved ids)
            - (fidsOf v (selectedData retrieved ids)).length) "") ∧
    (∀ r ∈ csvRows ExpTask.TRAKE retrieved ids ans,
      r.length = 1 + maxGroupLen (selectedData retrieved ids)) := by
  have hrows : csvRows ExpTask.TRAKE retrieved ids ans
      = (groupByVideo (selectedData retrieved ids)).map
          (fun p => p.1 :: p.2 ++ List.replicate
            (maxFrames (groupByVideo (selectedData retrieved ids)) - p.2.length) "") := by
    have hemp : (selectedData retrieved ids).isEmpty = false := isEmpty_false_of_ne_nil hne
    simp [csvRows, hemp]
  have hknd : ((groupByVideo (selectedData retrieved ids)).map Prod.fst).Nodup :=
    nodup_keys_groupFold _ [] (by simp)
  have hgetG : ∀ w, getG (groupByVideo (selectedData retrieved ids)) w
      = fidsOf w (selectedData retrieved ids) := by
    intro w
    have h := getG_groupFold (selectedData retrieved ids) [] w
    simpa [getG] using h
  have hheads : (csvRows ExpTask.TRAKE retrieved ids ans).map (fun r => r.headD "")
      = (groupByVideo (selectedData retrieved ids)).map Prod.fst := by
    rw [hrows, List.map_map]
    exact List.map_congr_left (fun p _ => rfl)
  refine ⟨?_, ?_, ?_, ?_⟩
  · rw [hheads]; exact hknd
  · intro v
    rw [hheads]
    have := mem_keys_groupFold (selectedData retrieved ids) [] v
    simpa using this
  · intro r hr
    rw [hrows] at hr
    rcases List.mem_map.mp hr with ⟨p, hp, rfl⟩
    obtain ⟨k, fs⟩ := p
    have hfs : fs = fidsOf k (selectedData retrieved ids) := by
      rw [← getG_of_mem _ hknd k fs hp, hgetG]
    have hkmem : k ∈ (selectedData retrieved ids).map videoNameOf := by
      have := (mem_keys_groupFold (selectedData retrieved ids) [] k).mp
        (List.mem_map_of_mem Prod.fst hp)
      simpa using this
    exact ⟨k, hkmem, by rw [maxFrames_groupByVideo, hfs]⟩
  · intro r hr
    rw [hrows] at hr
    rcases List.mem_map.mp hr with ⟨p, hp, rfl⟩
    have hple : p.2.length ≤ maxFrames (groupByVideo (selectedData retrieved ids)) :=
      le_foldr_max (List.mem_map_of_mem (fun p => p.2.length) hp)
    rw [← maxFrames_groupByVideo]
    simp only [List.length_cons, List.length_append, List.length_replicate]
    omega

theorem trake_rows_shape_witness :
    selectedData [recT1, recT2, recT3] ["f1", "f2", "f3"] ≠ [] ∧
    ∀ r ∈ csvRows ExpTask.TRAKE [recT1, recT2, recT3] ["f1", "f2", "f3"] "",
      r.length = 1 + maxGroupLen (selectedData [recT1, recT2, recT3] ["f1", "f2", "f3"]) := by
  have hlen : (selectedData [recT1, recT2, recT3] ["f1", "f2", "f3"]).length = 3 := rfl
  have hne : selectedData [recT1, recT2, recT3] ["f1", "f2", "f3"] ≠ [] := by
    intro hnil
    rw [hnil] at hlen
    exact absurd hlen (by decide)
  exact ⟨hne, (trake_rows_shape [recT1, recT2, recT3] ["f1", "f2", "f3"] "" hne).2.2.2⟩

/-! ### C1 — ten records per matching video -/

lemma video_name_recordsForEntry (store : DatasetStore) (q : String)
    (e : String × Option Json) (r : FrameRec) (hr : r ∈ recordsForEntry store q e) :
    r.video_name = some (pySplitextRoot e.1) := by
  cases h2 : e.2 with
  | none =>
    simp only [recordsForEntry, h2] at hr
    exact absurd hr (List.not_mem_nil r)
  | some doc =>
    simp only [recordsForEntry, h2] at hr
    by_cases hm : docMatches q doc = true
    · rw [if_pos hm] at hr
      cases hkf : lookupKF store.keyframes (pySplitextRoot e.1) with
      | none =>
        rw [hkf] at hr
        exact absurd hr (List.not_mem_nil r)
      | some listing =>
        rw [hkf] at hr
        rcases List.mem_map.mp hr with ⟨p, hp, rfl⟩
        rfl
    · rw [if_neg hm] at hr
      exact absurd hr (List.not_mem_nil r)

/-- C1 (amended): for a dataset store containing a metadata file whose
serialized content contains the case-folded query, whose keyframe
directory for the derived video id holds at least ten `.jpg` files, and
where no other metadata file derives the same video id (file names being
distinct, as in a directory listing), the search emits exactly 10
records for that video, taken from the first 10 `.jpg` files in listing
order; each has `frame_id` = file name without extension and
`metadata.frame_number` = its position 0..9 in the capped list.  Without
the same-video-id proviso the claim fails — see the counterexample. -/
theorem search_caps_ten_per_video
    (root : String) (kfs : List (String × List String))
    (entries : List (String × Option Json)) (q name : String) (doc : Json)
    (listing : List String)
    (hnd : (entries.map Prod.fst).Nodup)
    (hmem : (name, some doc) ∈ entries)
    (hjson : strEndsWith name ".json" = true)
    (hmatch : docMatches q doc = true)
    (hkf : lookupKF kfs (pySplitextRoot name) = some listing)
    (hten : 10 ≤ (listing.filter (fun f => strEndsWith f ".jpg")).length)
    (huniq : ∀ e ∈ entries, strEndsWith e.1 ".json" = true →
      pySplitextRoot e.1 = pySplitextRoot name → e.1 = name) :
    ∃ res, search_database_text ⟨some entries, kfs, root⟩ q = Except.ok res ∧
      (res.filter (fun r => decide (r.video_name = some (pySplitextRoot name)))).length
        = 10 ∧
      (res.filter (fun r => decide (r.video_name = some (pySplitextRoot name)))).map
          (fun r => r.frame_id)
        = ((listing.filter (fun f => strEndsWith f ".jpg")).take 10).map pySplitextRoot ∧
      (res.filter (fun r => decide (r.video_name = some (pySplitextRoot name)))).map
          metaFrameNumber
        = (List.range 10).map (fun i => some (Json.num (Int.ofNat i))) := by
  have hmemf : ((name, some doc) : String × Option Json)
      ∈ entries.filter (fun e => strEndsWith e.1 ".json") :=
    List.mem_filter.mpr ⟨hmem, hjson⟩
  have hndf : (entries.filter (fun e => strEndsWith e.1 ".json")).Nodup :=
    (List.Nodup.of_map Prod.fst hnd).sublist (List.filter_sublist entries)
  have hothers : ∀ b ∈ entries.filter (fun e => strEndsWith e.1 ".json"),
      b ≠ (name, some doc) →
      (recordsForEntry ⟨some entries, kfs, root⟩ q b).filter
        (fun r => decide (r.video_name = some (pySplitextRoot name))) = [] := by
    intro b hb hne
    rcases List.mem_filter.mp hb with ⟨hbent, hbjson⟩
    by_contra hnonnil
    obtain ⟨r, hrmem⟩ := List.exists_mem_of_ne_nil _ hnonnil
    rcases List.mem_filter.mp hrmem with ⟨hrrec, hrveq⟩
    have hv := video_name_recordsForEntry _ _ _ _ hrrec
    rw [hv] at hrveq
    have hstem : pySplitextRoot b.1 = pySplitextRoot name :=
      Option.some.inj (of_decide_eq_true hrveq)
    have hbname : b.1 = name := huniq b hbent hbjson hstem
    exact hne (List.inj_on_of_nodup_map hnd hbent hmem (by rw [hbname]))
  have hcollapse :
      ((entries.filter (fun e => strEndsWith e.1 ".json")).flatMap
          (recordsForEntry ⟨some entries, kfs, root⟩ q)).filter
        (fun r => decide (r.video_name = some (pySplitextRoot name)))
      = (recordsForEntry ⟨some entries, kfs, root⟩ q (name, some doc)).filter
          (fun r => decide (r.video_name = some (pySplitextRoot name))) := by
    rw [filter_flatMap]
    exact flatMap_eq_single _ _ _ hndf hmemf hothers
  have hrecs : recordsForEntry ⟨some entries, kfs, root⟩ q (name, some doc)
      = (pyEnumerate ((listing.filter (fun f => strEndsWith f ".jpg")).take 10)).map
          (mkKFRecord root (pySplitextRoot name) doc) := by
    simp [recordsForEntry, hmatch, hkf]
  have hall : (recordsForEntry ⟨some entries, kfs, root⟩ q (name, some doc)).filter
      (fun r => decide (r.video_name = some (pySplitextRoot name)))
      = recordsForEntry ⟨some entries, kfs, root⟩ q (name, some doc) :=
    List.filter_eq_self.mpr (fun r hr => by
      rw [video_name_recordsForEntry _ _ _ _ hr]
      exact decide_eq_true rfl)
  have hlen10 : ((listing.filter (fun f => strEndsWith f ".jpg")).take 10).length = 10 := by
    rw [List.length_take]
    exact Nat.min_eq_left hten
  refine ⟨_, rfl, ?_, ?_, ?_⟩
  · rw [hcollapse, hall, hrecs, List.length_map]
    unfold pyEnumerate
    rw [length_enumFrom, hlen10]
  · rw [hcollapse, hall, hrecs, List.map_map]
    unfold pyEnumerate
    calc (enumFrom 0 ((listing.filter (fun f => strEndsWith f ".jpg")).take 10)).map
          ((fun r => r.frame_id) ∘ mkKFRecord root (pySplitextRoot name) doc)
        = (enumFrom 0 ((listing.filter (fun f => strEndsWith f ".jpg")).take 10)).map
            (fun p => pySplitextRoot p.2) := List.map_congr_left (fun p _ => rfl)
      _ = ((listing.filter (fun f => strEndsWith f ".jpg")).take 10).map pySplitextRoot :=
        enumFrom_map_snd pySplitextRoot 0 _
  · rw [hcollapse, hall, hrecs, List.map_map]
    unfold pyEnumerate
    calc (enumFrom 0 ((listing.filter (fun f => strEndsWith f ".jpg")).take 10)).map
          (metaFrameNumber ∘ mkKFRecord root (pySplitextRoot name) doc)
        = (enumFrom 0 ((listing.filter (fun f => strEndsWith f ".jpg")).take 10)).map
            (fun p => some (Json.num (Int.ofNat p.1))) :=
          List.map_congr_left (fun p _ => rfl)
      _ = (List.range' 0 ((listing.filter (fun f => strEndsWith f ".jpg")).take 10).length).map
            (fun i => some (Json.num (Int.ofNat i))) :=
          enumFrom_map_fst (fun i => some (Json.num (Int.ofNat i))) 0 _
      _ = (List.range 10).map (fun i => some (Json.num (Int.ofNat i))) := by
          rw [hlen10, ← List.range_eq_range']

theorem search_caps_ten_per_video_witness :
    docMatches "cat" catDoc = true ∧
    (∃ res, search_database_text catStore "cat" = Except.ok res ∧
      (res.filter (fun r => decide (r.video_name = some (pySplitextRoot "v1.json")))).length
        = 10 ∧
      (res.filter (fun r => decide (r.video_name = some (pySplitextRoot "v1.json")))).map
          (fun r => r.frame_id)
        = ((catListing.filter (fun f => strEndsWith f ".jpg")).take 10).map pySplitextRoot ∧
      (res.filter (fun r => decide (r.video_name = some (pySplitextRoot "v1.json")))).map
          metaFrameNumber
        = (List.range 10).map (fun i => some (Json.num (Int.ofNat i)))) := by
  refine ⟨rfl, ?_⟩
  exact search_caps_ten_per_video "db" [("v1", catListing)] [("v1.json", some catDoc)]
    "cat" "v1.json" catDoc catListing (by simp) (List.mem_singleton.mpr rfl) rfl rfl rfl
    (by decide)
    (by
      intro e he _ _
      rw [List.mem_singleton] at he
      rw [he])

/-- C1 counterexample: the distinct file names `.json` and `.json.json`
both derive the video id `.json` under `os.path.splitext`'s leading-dot
rule, so a store satisfying every condition of the claim for the
metadata file `.json` (its document matches `cat`, its keyframe
directory holds exactly 10 `.jpg` files) makes the search emit 20
records for that video, not 10. -/
theorem search_caps_ten_per_video_cex :
    pySplitextRoot ".json" = ".json" ∧
    pySplitextRoot ".json.json" = ".json" ∧
    docMatches "cat" (Json.obj [("title", Json.str "cat video")]) = true ∧
    (lookupKF dotStore.keyframes ".json").map
        (fun l => (l.filter (fun f => strEndsWith f ".jpg")).length) = some 10 ∧
    (search_database_text dotStore "cat").map
        (fun l => (l.filter (fun r => decide (r.video_name = some ".json"))).length)
      = Except.ok 20 ∧
    (20 : Nat) ≠ 10 :=
  ⟨rfl, rfl, rfl, rfl, rfl, by decide⟩

end VideoRetrieval
